import Mathlib

/-!
Verification model of `src/main.py` (theinfomaniac/Nanobot-Surgeon), a
threaded HTTP load generator.  The pure helpers (`parse_headers`, the
guardrail check, outcome classification, the summary block) are embedded
as Lean functions; the worker / coordinator concurrency of lines 34-128
is embedded as a labelled transition system over an explicit shared
state, with one transition per atomic action of the Python code.
-/

namespace LoadGen

/-- Whitespace characters removed by Python `str.strip()` (ASCII fragment:
space, tab, newline, carriage return, vertical tab, form feed). -/
def isPySpace (c : Char) : Bool :=
  c == ' ' || c == '\t' || c == '\n' || c == '\r' || c == '\x0b' || c == '\x0c'

/-- Python `s.strip()` on a list of characters: drop whitespace at both
ends.  Embeds the two `.strip()` calls on line 30 of src/main.py. -/
def pyStrip (cs : List Char) : List Char :=
  ((cs.dropWhile isPySpace).reverse.dropWhile isPySpace).reverse

/-- Python `h.split(":", 1)` fused with the `":" in h` test of lines 28-29
of src/main.py: `none` when the string contains no colon, otherwise the
characters before and the characters after the first colon. -/
def splitFirstColon : List Char → Option (List Char × List Char)
  | [] => none
  | c :: cs =>
    if c == ':' then some ([], cs)
    else
      match splitFirstColon cs with
      | none => none
      | some kv => some (c :: kv.1, kv.2)

/-- Python dict assignment `headers[k] = v` (line 30): replace the value in
place when the key is already present (exact string equality, as for a plain
Python `dict`), otherwise append the new pair at the end. -/
def dictInsert (m : List (List Char × List Char)) (k v : List Char) :
    List (List Char × List Char) :=
  if m.any fun p => p.1 == k then
    m.map fun p => if p.1 == k then (p.1, v) else p
  else m ++ [(k, v)]

/-- One iteration of the `for h in header_list` loop of lines 27-30: an entry
without a colon is skipped, an entry with a colon is split at its first colon,
both parts are stripped, and the pair is stored in the dict. -/
def addHeader (m : List (List Char × List Char)) (h : String) :
    List (List Char × List Char) :=
  match splitFirstColon h.data with
  | none => m
  | some kv => dictInsert m (pyStrip kv.1) (pyStrip kv.2)

/-- Lines 23-31 of src/main.py (`parse_headers`).  The argument is `none`
when `--header` was never passed (Python `None`); `if not header_list`
returns the empty dict for both `None` and the empty list. -/
def parse_headers (headerList : Option (List String)) :
    List (List Char × List Char) :=
  match headerList with
  | none => []
  | some l => l.foldl addHeader []

/-- Builds the header string `k ++ ":" ++ v` from raw character lists. -/
def mkHeader (k v : List Char) : String :=
  ⟨k ++ ':' :: v⟩

/-- Line 75 of src/main.py:
`args.requests > 100000 and args.threads * args.requests > 1000000`.
Python `int`s are unbounded and may be negative, so both are `ℤ`. -/
def guardrailRejects (threads requests : ℤ) : Bool :=
  decide (100000 < requests) && decide (1000000 < threads * requests)

/-- Result of the pre-flight part of `main` (lines 75-81). -/
inductive MainOutcome
  | abort (exitCode : ℕ)
  | proceed (seeded : ℕ)
deriving DecidableEq

/-- Lines 75-81 of src/main.py: when the guardrail trips, print and
`sys.exit(1)` before any queue seeding or thread start; otherwise seed the
work queue with one unit per iteration of `range(args.requests)` (which is
`max requests 0`, i.e. `Int.toNat`). -/
def mainGuard (threads requests : ℤ) : MainOutcome :=
  if guardrailRejects threads requests then .abort 1
  else .proceed requests.toNat

/-- Classified outcome of one request attempt; a transport-level failure
carries the exception's message. -/
inductive Outcome
  | success
  | failure (msg : Option (List Char))
deriving DecidableEq

/-- Result of one `session.request` call (line 43): either an HTTP response
with a status code, or a raised transport exception with a message. -/
inductive RecvResult
  | status (code : ℕ)
  | exc (msg : List Char)

/-- Lines 46-55 of src/main.py: a status code with
`200 <= resp.status_code < 400` counts as success, every other status code
counts as failure, and every exception raised by the request counts as
failure carrying the exception's message. -/
def classify : RecvResult → Outcome
  | .status c => if 200 ≤ c ∧ c < 400 then .success else .failure none
  | .exc m => .failure (some m)

/-- The shared counters dict of line 86. -/
structure Counters where
  sent : ℕ
  success : ℕ
  fail : ℕ
deriving DecidableEq

/-- Lines 44-55 of src/main.py: inside the lock, `sent` is incremented
together with exactly one of `success` / `fail`, depending on the outcome. -/
def recordOutcome (c : Counters) (o : Outcome) : Counters :=
  match o with
  | .success => { sent := c.sent + 1, success := c.success + 1, fail := c.fail }
  | .failure _ => { sent := c.sent + 1, success := c.success, fail := c.fail + 1 }

/-- Program counter of one worker thread (lines 34-59 of src/main.py).
`check` is the `while not stop_event.is_set()` poll; `take` the
`q.get_nowait()`; `exec` the `session.request` call; `record o` the locked
counter update with the already-classified outcome; `done` the
`q.task_done()` of the `finally` block; `exited` the thread having left its
loop (via the stop check or via `queue.Empty`). -/
inductive WPC
  | check
  | take
  | exec
  | record (o : Outcome)
  | done
  | exited
deriving DecidableEq

/-- Program counter of the coordinator / main thread (lines 107-128 of
src/main.py): the `while any(t.is_alive())` polling loop, the blocking
`q.join()`, the bounded `t.join(timeout=1)` loop of the `finally` block, and
finally the summary printing. -/
inductive CPC
  | poll
  | qjoin
  | joining
  | summary
deriving DecidableEq

/-- Global state shared by the worker threads and the coordinator:
`queue` is the number of items available to `q.get_nowait()`, `unfinished`
is the queue's unfinished-task count consumed by `q.join()` and decremented
by `q.task_done()`, `counters` / `stop` are the shared dict and
`threading.Event`, `workers` holds each worker thread's program counter, and
`coord` is the main thread's program counter. -/
structure Sys where
  queue : ℕ
  unfinished : ℕ
  counters : Counters
  stop : Bool
  workers : List WPC
  coord : CPC
deriving DecidableEq

/-- State after lines 79-105: the queue is seeded with `N` items (so both its
item count and its unfinished-task count are `N`), counters are zero, the
stop event is clear, `T` worker threads start at the top of their loop, and
the main thread enters its polling loop. -/
def initSys (N T : ℕ) : Sys :=
  { queue := N
    unfinished := N
    counters := { sent := 0, success := 0, fail := 0 }
    stop := false
    workers := List.replicate T .check
    coord := .poll }

/-- `any(t.is_alive() for t in threads)` is false (line 109): every worker
thread has left its loop. -/
def allExited (s : Sys) : Bool :=
  s.workers.all fun pc => pc == .exited

/-- A worker holds a dequeued unit whose outcome has not yet been recorded
(it is between `q.get_nowait()` and the locked counter update). -/
def isInflight : WPC → Bool
  | .exec => true
  | .record _ => true
  | _ => false

/-- Number of dequeued-but-unrecorded units. -/
def inflight (s : Sys) : ℕ :=
  s.workers.countP isInflight

/-- Action labels of the transition system, one per atomic step of
src/main.py: the five worker steps (indexed by the worker's position),
the SIGINT handler of lines 90-92, one iteration of the coordinator's
polling loop (lines 109-112), the return of `q.join()` (line 113), and the
bounded `t.join(timeout=1)` loop followed by the summary (lines 118-128). -/
inductive Act
  | wcheck (i : ℕ)
  | wtake (i : ℕ)
  | wexec (i : ℕ) (r : RecvResult)
  | wrecord (i : ℕ)
  | wdone (i : ℕ)
  | sigint
  | cpoll
  | cjoin
  | cfinish

/-- Executable small-step semantics: `none` when the action is not enabled.
Each case embeds the corresponding lines of src/main.py quoted in `Act`. -/
def applyAct (a : Act) (s : Sys) : Option Sys :=
  match a with
  | .wcheck i =>
    match s.workers.get? i with
    | some .check =>
      some { s with workers := s.workers.set i (if s.stop then .exited else .take) }
    | _ => none
  | .wtake i =>
    match s.workers.get? i with
    | some .take =>
      if s.queue = 0 then some { s with workers := s.workers.set i .exited }
      else some { s with queue := s.queue - 1, workers := s.workers.set i .exec }
    | _ => none
  | .wexec i r =>
    match s.workers.get? i with
    | some .exec => some { s with workers := s.workers.set i (.record (classify r)) }
    | _ => none
  | .wrecord i =>
    match s.workers.get? i with
    | some (.record o) =>
      some { s with counters := recordOutcome s.counters o, workers := s.workers.set i .done }
    | _ => none
  | .wdone i =>
    match s.workers.get? i with
    | some .done =>
      some { s with unfinished := s.unfinished - 1, workers := s.workers.set i .check }
    | _ => none
  | .sigint => some { s with stop := true }
  | .cpoll =>
    match s.coord with
    | .poll => some { s with coord := if allExited s || s.stop then .qjoin else .poll }
    | _ => none
  | .cjoin =>
    match s.coord, s.unfinished with
    | .qjoin, 0 => some { s with coord := .joining }
    | _, _ => none
  | .cfinish =>
    match s.coord with
    | .joining => some { s with coord := .summary }
    | _ => none

/-- Runs a list of actions in order; `none` if any action is not enabled. -/
def runActs (s : Sys) : List Act → Option Sys
  | [] => some s
  | a :: rest =>
    match applyAct a s with
    | none => none
    | some s' => runActs s' rest

/-- One step of the system: some action is enabled and is taken. -/
def StepR (s s' : Sys) : Prop :=
  ∃ a, applyAct a s = some s'

/-- Zero or more steps. -/
def Reach : Sys → Sys → Prop :=
  Relation.ReflTransGen StepR

/-- Inductive invariant of the shared state, for a run seeded with `N`
units: the counters balance, every counted request is matched against a
dequeued unit (`sent + queue + inflight = N`), and if the stop event was
never set and every worker has exited then the queue is exhausted. -/
def Inv (N : ℕ) (s : Sys) : Prop :=
  s.counters.sent = s.counters.success + s.counters.fail ∧
  s.counters.sent + s.queue + inflight s = N ∧
  (s.stop = false → s.workers ≠ [] →
    (∀ pc ∈ s.workers, pc = WPC.exited) → s.queue = 0)

/-- One line of the final output block of lines 122-128 of src/main.py.
Formatting is abstracted away; each constructor keeps the printed datum. -/
inductive SummaryLine
  | header
  | totalSent (n : ℕ)
  | successful (n : ℕ)
  | failed (n : ℕ)
  | elapsedSecs (e : ℚ)
  | reqPerSec (r : ℚ)
deriving DecidableEq

/-- Lines 122-128 of src/main.py: the header and the four data lines are
printed unconditionally; the requests-per-second line, whose datum divides
`sent` by the elapsed time, is printed only when `elapsed > 0`.  The elapsed
wall-clock measurement is modelled as a rational. -/
def summaryLines (c : Counters) (elapsed : ℚ) : List SummaryLine :=
  [.header, .totalSent c.sent, .successful c.success, .failed c.fail,
   .elapsedSecs elapsed] ++
  (if 0 < elapsed then [.reqPerSec ((c.sent : ℚ) / elapsed)] else [])

/-- One complete worker iteration in which the request returns HTTP 200. -/
def okIteration : List Act :=
  [.wcheck 0, .wtake 0, .wexec 0 (.status 200), .wrecord 0, .wdone 0]

/-- Interrupt scenario of claim C1 (N = 100, T = 1): three requests complete,
SIGINT fires, the worker observes the stop event and exits, and the
coordinator's polling loop ends (all threads dead), reaching `q.join()`. -/
def c1Trace : List Act :=
  okIteration ++ okIteration ++ okIteration ++ [.sigint, .wcheck 0, .cpoll]

/-- The state the interrupt scenario reaches: 97 units still in the queue,
97 unfinished tasks, the single worker exited, the main thread blocked in
`q.join()`. -/
def c1Blocked : Sys :=
  { queue := 97
    unfinished := 97
    counters := { sent := 3, success := 3, fail := 0 }
    stop := true
    workers := [.exited]
    coord := .qjoin }

/-- Complete uninterrupted run with N = 1, T = 1: one request succeeds, the
worker drains the queue and exits. -/
def c5Trace : List Act :=
  okIteration ++ [.wcheck 0, .wtake 0]

/-- Final worker-side state of the N = 1, T = 1 uninterrupted run. -/
def c5Final : Sys :=
  { queue := 0
    unfinished := 0
    counters := { sent := 1, success := 1, fail := 0 }
    stop := false
    workers := [.exited]
    coord := .poll }

/-- A state whose single worker is at the loop's stop-event poll with the
stop event already set. -/
def c6Polling : Sys :=
  { queue := 5
    unfinished := 5
    counters := { sent := 0, success := 0, fail := 0 }
    stop := true
    workers := [.check]
    coord := .poll }

end LoadGen

namespace LoadGen

example : "ab".data = ['a', 'b'] := rfl

example :
    parse_headers (some ["Content-Type: application/json", "BadHeaderNoColon"]) =
      [("Content-Type".data, "application/json".data)] := by decide

example :
    (parse_headers (some ["X-Token: 1", "x-token: 2"])).length = 2 := by decide

example : runActs (initSys 100 1) c1Trace = some c1Blocked := rfl

example : runActs (initSys 1 1) c5Trace = some c5Final := rfl

theorem lt_length_of_get? {α : Type _} {l : List α} {i : ℕ} {a : α}
    (h : l.get? i = some a) : i < l.length := by
  induction l generalizing i with
  | nil => simp at h
  | cons b t ih =>
    cases i with
    | zero => simp
    | succ j =>
      have := ih (i := j) (by simpa using h)
      simp only [List.length_cons]
      omega

theorem mem_of_get? {α : Type _} {l : List α} {i : ℕ} {a : α}
    (h : l.get? i = some a) : a ∈ l := by
  induction l generalizing i with
  | nil => simp at h
  | cons b t ih =>
    cases i with
    | zero => simp at h; simp [h]
    | succ j => exact List.mem_cons_of_mem _ (ih (by simpa using h))

theorem get?_set_self {α : Type _} (l : List α) (i : ℕ) (b : α)
    (h : i < l.length) : (l.set i b).get? i = some b := by
  induction l generalizing i with
  | nil => simp at h
  | cons c t ih =>
    cases i with
    | zero => rfl
    | succ j => simpa using ih j (by simpa using h)

theorem get?_set_ne {α : Type _} (l : List α) (i j : ℕ) (b : α)
    (h : i ≠ j) : (l.set i b).get? j = l.get? j := by
  induction l generalizing i j with
  | nil => simp
  | cons c t ih =>
    cases i with
    | zero =>
      cases j with
      | zero => exact absurd rfl h
      | succ j' => rfl
    | succ i' =>
      cases j with
      | zero => rfl
      | succ j' => simpa using ih i' j' (by omega)

theorem countP_set {α : Type _} (p : α → Bool) (l : List α) (i : ℕ) (a b : α)
    (h : l.get? i = some b) :
    (l.set i a).countP p + (if p b then 1 else 0) =
      l.countP p + (if p a then 1 else 0) := by
  induction l generalizing i with
  | nil => simp at h
  | cons c t ih =>
    cases i with
    | zero =>
      have hb : c = b := by simpa using h
      subst hb
      simp [List.countP_cons]
      omega
    | succ j =>
      have := ih j (by simpa using h)
      simp [List.countP_cons]
      omega

theorem countP_eq_zero_of {α : Type _} (p : α → Bool) (l : List α)
    (h : ∀ a ∈ l, p a = false) : l.countP p = 0 := by
  rw [List.countP_eq_zero]
  intro a ha
  simp [h a ha]

/-- Inversion of the step relation: every step is one of the ten atomic
actions of src/main.py, with its enabling condition and its effect. -/
theorem stepR_cases {s s' : Sys} (h : StepR s s') :
    (∃ i, s.workers.get? i = some WPC.check ∧
      s' = { s with workers := s.workers.set i (if s.stop then .exited else .take) }) ∨
    (∃ i, s.workers.get? i = some WPC.take ∧ s.queue = 0 ∧
      s' = { s with workers := s.workers.set i .exited }) ∨
    (∃ i, s.workers.get? i = some WPC.take ∧ s.queue ≠ 0 ∧
      s' = { s with queue := s.queue - 1, workers := s.workers.set i .exec }) ∨
    (∃ i r, s.workers.get? i = some WPC.exec ∧
      s' = { s with workers := s.workers.set i (.record (classify r)) }) ∨
    (∃ i o, s.workers.get? i = some (WPC.record o) ∧
      s' = { s with counters := recordOutcome s.counters o,
                    workers := s.workers.set i .done }) ∨
    (∃ i, s.workers.get? i = some WPC.done ∧
      s' = { s with unfinished := s.unfinished - 1,
                    workers := s.workers.set i .check }) ∨
    (s' = { s with stop := true }) ∨
    (s.coord = CPC.poll ∧
      s' = { s with coord := if allExited s || s.stop then .qjoin else .poll }) ∨
    (s.coord = CPC.qjoin ∧ s.unfinished = 0 ∧ s' = { s with coord := .joining }) ∨
    (s.coord = CPC.joining ∧ s' = { s with coord := .summary }) := by
  obtain ⟨a, ha⟩ := h
  cases a with
  | wcheck i =>
    simp only [applyAct] at ha
    rcases hw : s.workers.get? i with _ | pc <;> rw [hw] at ha
    · simp at ha
    · cases pc <;> simp at ha
      exact Or.inl ⟨i, hw, ha.symm⟩
  | wtake i =>
    simp only [applyAct] at ha
    rcases hw : s.workers.get? i with _ | pc <;> rw [hw] at ha
    · simp at ha
    · cases pc <;> simp at ha
      by_cases hq : s.queue = 0
      · rw [if_pos hq] at ha
        exact Or.inr (Or.inl ⟨i, hw, hq, (Option.some.inj ha).symm⟩)
      · rw [if_neg hq] at ha
        exact Or.inr (Or.inr (Or.inl ⟨i, hw, hq, (Option.some.inj ha).symm⟩))
  | wexec i r =>
    simp only [applyAct] at ha
    rcases hw : s.workers.get? i with _ | pc <;> rw [hw] at ha
    · simp at ha
    · cases pc <;> simp at ha
      exact Or.inr (Or.inr (Or.inr (Or.inl ⟨i, r, hw, ha.symm⟩)))
  | wrecord i =>
    simp only [applyAct] at ha
    rcases hw : s.workers.get? i with _ | pc <;> rw [hw] at ha
    · simp at ha
    · cases pc <;> simp at ha
      exact Or.inr (Or.inr (Or.inr (Or.inr (Or.inl ⟨i, _, hw, ha.symm⟩))))
  | wdone i =>
    simp only [applyAct] at ha
    rcases hw : s.workers.get? i with _ | pc <;> rw [hw] at ha
    · simp at ha
    · cases pc <;> simp at ha
      exact Or.inr (Or.inr (Or.inr (Or.inr (Or.inr (Or.inl ⟨i, hw, ha.symm⟩)))))
  | sigint =>
    simp only [applyAct] at ha
    simp at ha
    exact Or.inr (Or.inr (Or.inr (Or.inr (Or.inr (Or.inr (Or.inl ha.symm))))))
  | cpoll =>
    simp only [applyAct] at ha
    rcases hc : s.coord with _ | _ | _ | _ <;> rw [hc] at ha
    · exact Or.inr (Or.inr (Or.inr (Or.inr (Or.inr (Or.inr (Or.inr
        (Or.inl ⟨rfl, (Option.some.inj ha).symm⟩)))))))
    · exact Option.noConfusion ha
    · exact Option.noConfusion ha
    · exact Option.noConfusion ha
  | cjoin =>
    simp only [applyAct] at ha
    rcases hc : s.coord with _ | _ | _ | _ <;> rw [hc] at ha
    · exact Option.noConfusion ha
    · rcases hu : s.unfinished with _ | u <;> rw [hu] at ha
      · exact Or.inr (Or.inr (Or.inr (Or.inr (Or.inr (Or.inr (Or.inr (Or.inr
          (Or.inl ⟨rfl, rfl, (Option.some.inj ha).symm⟩))))))))
      · exact Option.noConfusion ha
    · exact Option.noConfusion ha
    · exact Option.noConfusion ha
  | cfinish =>
    simp only [applyAct] at ha
    rcases hc : s.coord with _ | _ | _ | _ <;> rw [hc] at ha
    · exact Option.noConfusion ha
    · exact Option.noConfusion ha
    · exact Or.inr (Or.inr (Or.inr (Or.inr (Or.inr (Or.inr (Or.inr (Or.inr
        (Or.inr ⟨rfl, (Option.some.inj ha).symm⟩))))))))
    · exact Option.noConfusion ha

theorem stepR_stop_mono {s s' : Sys} (h : StepR s s') (hs : s.stop = true) :
    s'.stop = true := by
  rcases stepR_cases h with ⟨i, hw, rfl⟩ | ⟨i, hw, hq, rfl⟩ | ⟨i, hw, hq, rfl⟩ |
    ⟨i, r, hw, rfl⟩ | ⟨i, o, hw, rfl⟩ | ⟨i, hw, rfl⟩ | rfl | ⟨hc, rfl⟩ |
    ⟨hc, hu, rfl⟩ | ⟨hc, rfl⟩ <;> first | rfl | exact hs

theorem stepR_length {s s' : Sys} (h : StepR s s') :
    s'.workers.length = s.workers.length := by
  rcases stepR_cases h with ⟨i, hw, rfl⟩ | ⟨i, hw, hq, rfl⟩ | ⟨i, hw, hq, rfl⟩ |
    ⟨i, r, hw, rfl⟩ | ⟨i, o, hw, rfl⟩ | ⟨i, hw, rfl⟩ | rfl | ⟨hc, rfl⟩ |
    ⟨hc, hu, rfl⟩ | ⟨hc, rfl⟩ <;> simp [List.length_set]

theorem stepR_counters_shape {s s' : Sys} (h : StepR s s') :
    s'.counters = s.counters ∨ ∃ o, s'.counters = recordOutcome s.counters o := by
  rcases stepR_cases h with ⟨i, hw, rfl⟩ | ⟨i, hw, hq, rfl⟩ | ⟨i, hw, hq, rfl⟩ |
    ⟨i, r, hw, rfl⟩ | ⟨i, o, hw, rfl⟩ | ⟨i, hw, rfl⟩ | rfl | ⟨hc, rfl⟩ |
    ⟨hc, hu, rfl⟩ | ⟨hc, rfl⟩
  · exact Or.inl rfl
  · exact Or.inl rfl
  · exact Or.inl rfl
  · exact Or.inl rfl
  · exact Or.inr ⟨o, rfl⟩
  · exact Or.inl rfl
  · exact Or.inl rfl
  · exact Or.inl rfl
  · exact Or.inl rfl
  · exact Or.inl rfl

theorem stepR_exited {s s' : Sys} {i : ℕ} (h : StepR s s')
    (he : s.workers.get? i = some WPC.exited) :
    s'.workers.get? i = some WPC.exited := by
  rcases stepR_cases h with ⟨j, hw, rfl⟩ | ⟨j, hw, hq, rfl⟩ | ⟨j, hw, hq, rfl⟩ |
    ⟨j, r, hw, rfl⟩ | ⟨j, o, hw, rfl⟩ | ⟨j, hw, rfl⟩ | rfl | ⟨hc, rfl⟩ |
    ⟨hc, hu, rfl⟩ | ⟨hc, rfl⟩
  case _ | _ | _ | _ | _ | _ =>
    dsimp only
    by_cases hij : j = i
    · subst hij
      rw [hw] at he
      simp at he
    · rw [get?_set_ne _ _ _ _ hij]
      exact he
  all_goals exact he

theorem inv_step {N : ℕ} {s s' : Sys} (h : StepR s s') (hI : Inv N s) : Inv N s' := by
  obtain ⟨h1, h2, h3⟩ := hI
  rcases stepR_cases h with ⟨i, hw, rfl⟩ | ⟨i, hw, hq, rfl⟩ | ⟨i, hw, hq, rfl⟩ |
    ⟨i, r, hw, rfl⟩ | ⟨i, o, hw, rfl⟩ | ⟨i, hw, rfl⟩ | rfl | ⟨hc, rfl⟩ |
    ⟨hc, hu, rfl⟩ | ⟨hc, rfl⟩
  · -- worker observes the stop flag: it exits (stop set) or moves to the dequeue
    have hcnt := countP_set isInflight s.workers i
      (if s.stop then WPC.exited else WPC.take) _ hw
    refine ⟨h1, ?_, ?_⟩
    · simp only [inflight] at h2 ⊢
      have hpc : isInflight (if s.stop then WPC.exited else WPC.take) = false := by
        cases s.stop <;> rfl
      rw [hpc] at hcnt
      simp [isInflight] at hcnt
      omega
    · intro hs' hne hall
      rw [hs'] at hall
      simp only [Bool.false_eq_true, if_false] at hall
      have hmem : WPC.take ∈ s.workers.set i WPC.take :=
        mem_of_get? (get?_set_self _ i _ (lt_length_of_get? hw))
      exact absurd (hall _ hmem) (by simp)
  · -- dequeue finds the queue empty: the worker drains out
    have hcnt := countP_set isInflight s.workers i WPC.exited WPC.take hw
    refine ⟨h1, ?_, fun _ _ _ => hq⟩
    simp only [inflight] at h2 ⊢
    simp [isInflight] at hcnt
    omega
  · -- dequeue takes a unit: it becomes in-flight
    have hcnt := countP_set isInflight s.workers i WPC.exec WPC.take hw
    refine ⟨h1, ?_, ?_⟩
    · simp only [inflight] at h2 ⊢
      simp [isInflight] at hcnt
      omega
    · intro _ _ hall
      have hmem : WPC.exec ∈ s.workers.set i WPC.exec :=
        mem_of_get? (get?_set_self _ i _ (lt_length_of_get? hw))
      exact absurd (hall _ hmem) (by simp)
  · -- the request returns: the unit stays in-flight until recorded
    have hcnt := countP_set isInflight s.workers i (WPC.record (classify r)) WPC.exec hw
    refine ⟨h1, ?_, ?_⟩
    · simp only [inflight] at h2 ⊢
      simp [isInflight] at hcnt
      omega
    · intro _ _ hall
      have hmem : WPC.record (classify r) ∈ s.workers.set i (WPC.record (classify r)) :=
        mem_of_get? (get?_set_self _ i _ (lt_length_of_get? hw))
      exact absurd (hall _ hmem) (by simp)
  · -- the locked counter update
    have hcnt := countP_set isInflight s.workers i WPC.done (WPC.record o) hw
    refine ⟨?_, ?_, ?_⟩
    · cases o <;> simp [recordOutcome] <;> omega
    · simp only [inflight] at h2 ⊢
      simp [isInflight] at hcnt
      cases o <;> simp [recordOutcome] <;> omega
    · intro _ _ hall
      have hmem : WPC.done ∈ s.workers.set i WPC.done :=
        mem_of_get? (get?_set_self _ i _ (lt_length_of_get? hw))
      exact absurd (hall _ hmem) (by simp)
  · -- q.task_done
    have hcnt := countP_set isInflight s.workers i WPC.check WPC.done hw
    refine ⟨h1, ?_, ?_⟩
    · simp only [inflight] at h2 ⊢
      simp [isInflight] at hcnt
      omega
    · intro _ _ hall
      have hmem : WPC.check ∈ s.workers.set i WPC.check :=
        mem_of_get? (get?_set_self _ i _ (lt_length_of_get? hw))
      exact absurd (hall _ hmem) (by simp)
  · -- SIGINT sets the stop event
    refine ⟨h1, h2, ?_⟩
    intro hs'
    exact absurd hs' (by simp)
  · exact ⟨h1, h2, h3⟩
  · exact ⟨h1, h2, h3⟩
  · exact ⟨h1, h2, h3⟩

theorem inv_init (N T : ℕ) : Inv N (initSys N T) := by
  refine ⟨rfl, ?_, ?_⟩
  · have hz : (List.replicate T WPC.check).countP isInflight = 0 :=
      countP_eq_zero_of _ _ fun a ha => by
        rw [List.eq_of_mem_replicate ha]
        rfl
    simp only [initSys, inflight]
    simpa using hz
  · intro _ hne hall
    have hT : T ≠ 0 := by
      intro h0
      apply hne
      simp [initSys, h0]
    have hmem : WPC.check ∈ (initSys N T).workers :=
      List.mem_replicate.2 ⟨hT, rfl⟩
    exact absurd (hall _ hmem) (by simp)

theorem reach_inv {N T : ℕ} {s : Sys} (h : Reach (initSys N T) s) : Inv N s := by
  induction h with
  | refl => exact inv_init N T
  | tail hr hstep ih => exact inv_step hstep ih

theorem reach_length {N T : ℕ} {s : Sys} (h : Reach (initSys N T) s) :
    s.workers.length = T := by
  induction h with
  | refl => simp [initSys]
  | tail hr hstep ih => rw [stepR_length hstep, ih]

theorem reach_stop_mono {s s' : Sys} (h : Reach s s') (hs : s.stop = true) :
    s'.stop = true := by
  induction h with
  | refl => exact hs
  | tail hr hstep ih => exact stepR_stop_mono hstep ih

theorem reach_exited {s s' : Sys} {i : ℕ} (h : Reach s s')
    (he : s.workers.get? i = some WPC.exited) :
    s'.workers.get? i = some WPC.exited := by
  induction h with
  | refl => exact he
  | tail hr hstep ih => exact stepR_exited hstep ih

theorem reach_of_runActs : ∀ (acts : List Act) (s s' : Sys),
    runActs s acts = some s' → Reach s s'
  | [], s, s', h => by
    simp only [runActs, Option.some.injEq] at h
    rw [← h]
    exact Relation.ReflTransGen.refl
  | a :: rest, s, s', h => by
    rcases hm : applyAct a s with _ | s1
    · rw [runActs, hm] at h
      exact Option.noConfusion h
    · rw [runActs, hm] at h
      exact Relation.ReflTransGen.head ⟨a, hm⟩ (reach_of_runActs rest s1 s' h)

theorem c1Blocked_stuck {s' : Sys} (h : StepR c1Blocked s') : s' = c1Blocked := by
  rcases stepR_cases h with ⟨i, hw, rfl⟩ | ⟨i, hw, hq, rfl⟩ | ⟨i, hw, hq, rfl⟩ |
    ⟨i, r, hw, rfl⟩ | ⟨i, o, hw, rfl⟩ | ⟨i, hw, rfl⟩ | rfl | ⟨hc, rfl⟩ |
    ⟨hc, hu, rfl⟩ | ⟨hc, rfl⟩
  case _ | _ | _ | _ | _ | _ => rcases i with _ | j <;> simp [c1Blocked] at hw
  · rfl
  · exact absurd hc (by decide)
  · exact absurd hu (by decide)
  · exact absurd hc (by decide)

theorem c1Blocked_only (s' : Sys) (h : Reach c1Blocked s') : s' = c1Blocked := by
  induction h with
  | refl => rfl
  | tail hr hstep ih =>
    rw [ih] at hstep
    exact c1Blocked_stuck hstep

theorem splitFirstColon_append (k v : List Char) (hk : ':' ∉ k) :
    splitFirstColon (k ++ ':' :: v) = some (k, v) := by
  induction k with
  | nil => simp [splitFirstColon]
  | cons c cs ih =>
    have hc : c ≠ ':' := fun hceq => hk (by simp [hceq])
    simp [splitFirstColon, hc, ih fun hmem => hk (List.mem_cons_of_mem _ hmem)]

theorem splitFirstColon_eq_none (cs : List Char) (h : ':' ∉ cs) :
    splitFirstColon cs = none := by
  induction cs with
  | nil => rfl
  | cons c t ih =>
    have hc : c ≠ ':' := fun hceq => h (by simp [hceq])
    simp [splitFirstColon, hc, ih fun hm => h (List.mem_cons_of_mem _ hm)]

theorem addHeader_mkHeader (m : List (List Char × List Char)) (k v : List Char)
    (hk : ':' ∉ k) :
    addHeader m (mkHeader k v) = dictInsert m (pyStrip k) (pyStrip v) := by
  simp [addHeader, mkHeader, splitFirstColon_append k v hk]

theorem dictInsert_nil (k v : List Char) : dictInsert [] k v = [(k, v)] := rfl

theorem dictInsert_same (k v1 v2 : List Char) :
    dictInsert [(k, v1)] k v2 = [(k, v2)] := by
  simp [dictInsert]

theorem dictInsert_other (k k' v1 v2 : List Char) (h : k ≠ k') :
    dictInsert [(k, v1)] k' v2 = [(k, v1), (k', v2)] := by
  simp [dictInsert, h]

/-- C2: the run aborts with exit code 1, before seeding any work, exactly
when the configured `requests` exceeds 100000 and `threads * requests`
exceeds 1000000; in particular `threads = 200000, requests = 200000` is
rejected, and any input not meeting both thresholds proceeds to seed the
work queue with one unit per request. -/
theorem C2_guardrail :
    (∀ threads requests : ℤ,
      mainGuard threads requests = MainOutcome.abort 1 ↔
        (100000 < requests ∧ 1000000 < threads * requests)) ∧
    mainGuard 200000 200000 = MainOutcome.abort 1 ∧
    (∀ threads requests : ℤ,
      ¬(100000 < requests ∧ 1000000 < threads * requests) →
        mainGuard threads requests = MainOutcome.proceed requests.toNat) := by
  refine ⟨?_, by decide, ?_⟩
  · intro t r
    by_cases h1 : 100000 < r <;> by_cases h2 : 1000000 < t * r <;>
      simp [mainGuard, guardrailRejects, h1, h2]
  · intro t r h
    by_cases h1 : 100000 < r <;> by_cases h2 : 1000000 < t * r
    · exact absurd ⟨h1, h2⟩ h
    all_goals simp [mainGuard, guardrailRejects, h1, h2]

theorem C2_guardrail_witness :
    mainGuard 4 20 = MainOutcome.proceed 20 :=
  C2_guardrail.2.2 4 20 (by decide)

/-- C3: an executed request is classified a success exactly when the HTTP
status code lies in [200, 400); every other status code is a failure, every
transport-level exception is a failure carrying the exception's message, and
recording any outcome is a total function (no exception escapes the worker
loop) that increments `sent` together with exactly one of `success` /
`fail`. -/
theorem C3_classification :
    (∀ code : ℕ,
      classify (RecvResult.status code) = Outcome.success ↔
        (200 ≤ code ∧ code < 400)) ∧
    (∀ code : ℕ,
      classify (RecvResult.status code) = Outcome.success ∨
        classify (RecvResult.status code) = Outcome.failure none) ∧
    (∀ msg, classify (RecvResult.exc msg) = Outcome.failure (some msg)) ∧
    (∀ c o, (recordOutcome c o).sent = c.sent + 1 ∧
      (((recordOutcome c o).success = c.success + 1 ∧
          (recordOutcome c o).fail = c.fail) ∨
        ((recordOutcome c o).success = c.success ∧
          (recordOutcome c o).fail = c.fail + 1))) := by
  refine ⟨?_, ?_, fun msg => rfl, ?_⟩
  · intro code
    by_cases h : 200 ≤ code ∧ code < 400 <;> simp [classify, h]
  · intro code
    by_cases h : 200 ≤ code ∧ code < 400 <;> simp [classify, h]
  · intro c o
    cases o <;> simp [recordOutcome]

/-- C4: in every state reachable from the seeded initial state, the counters
satisfy `sent = success + fail` and `sent ≤ N` (the fields are naturals,
hence non-negative); along every further step the three fields are
non-decreasing, and any step that changes the counters records exactly one
outcome of a worker holding a previously dequeued unit. -/
theorem C4_counters_invariant (N T : ℕ) (s : Sys)
    (h : Reach (initSys N T) s) :
    (s.counters.sent = s.counters.success + s.counters.fail ∧
      s.counters.sent ≤ N) ∧
    ∀ s', StepR s s' →
      (s.counters.sent ≤ s'.counters.sent ∧
        s.counters.success ≤ s'.counters.success ∧
        s.counters.fail ≤ s'.counters.fail) ∧
      (s'.counters ≠ s.counters →
        ∃ i o, s.workers.get? i = some (WPC.record o) ∧
          s'.counters = recordOutcome s.counters o) := by
  obtain ⟨h1, h2, h3⟩ := reach_inv h
  refine ⟨⟨h1, by omega⟩, ?_⟩
  intro s' hstep
  constructor
  · rcases stepR_counters_shape hstep with heq | ⟨o, heq⟩
    · rw [heq]
      exact ⟨le_refl _, le_refl _, le_refl _⟩
    · rw [heq]
      cases o <;> simp [recordOutcome]
  · intro hne
    rcases stepR_cases hstep with ⟨i, hw, rfl⟩ | ⟨i, hw, hq, rfl⟩ | ⟨i, hw, hq, rfl⟩ |
      ⟨i, r, hw, rfl⟩ | ⟨i, o, hw, rfl⟩ | ⟨i, hw, rfl⟩ | rfl | ⟨hc, rfl⟩ |
      ⟨hc, hu, rfl⟩ | ⟨hc, rfl⟩
    · exact absurd rfl hne
    · exact absurd rfl hne
    · exact absurd rfl hne
    · exact absurd rfl hne
    · exact ⟨i, o, hw, rfl⟩
    · exact absurd rfl hne
    · exact absurd rfl hne
    · exact absurd rfl hne
    · exact absurd rfl hne
    · exact absurd rfl hne

theorem C4_counters_invariant_witness :
    (initSys 20 4).counters.sent =
        (initSys 20 4).counters.success + (initSys 20 4).counters.fail ∧
      (initSys 20 4).counters.sent ≤ 20 :=
  (C4_counters_invariant 20 4 (initSys 20 4) Relation.ReflTransGen.refl).1

/-- C5: for every request count N and thread count T ≥ 1, in a run whose
stop event was never set (the flag is still clear — SIGINT is the only
setter), once every worker has exited the final counters satisfy `sent = N`
and `success + fail = N`; and in every reachable state of such a seeded run,
`sent` never exceeds N. -/
theorem C5_completion (N T : ℕ) (hT : 1 ≤ T) (s : Sys)
    (h : Reach (initSys N T) s) (hstop : s.stop = false)
    (hex : ∀ pc ∈ s.workers, pc = WPC.exited) :
    (s.counters.sent = N ∧ s.counters.success + s.counters.fail = N) ∧
    ∀ s', Reach (initSys N T) s' → s'.counters.sent ≤ N := by
  obtain ⟨h1, h2, h3⟩ := reach_inv h
  have hlen : s.workers.length = T := reach_length h
  have hne : s.workers ≠ [] := by
    intro h0
    rw [h0] at hlen
    simp at hlen
    omega
  have hq : s.queue = 0 := h3 hstop hne hex
  have hinf : inflight s = 0 :=
    countP_eq_zero_of _ _ fun a ha => by rw [hex a ha]; rfl
  refine ⟨⟨by omega, by omega⟩, ?_⟩
  intro s' h'
  obtain ⟨g1, g2, g3⟩ := reach_inv h'
  omega

theorem C5_completion_witness :
    c5Final.counters.sent = 1 ∧
      c5Final.counters.success + c5Final.counters.fail = 1 :=
  (C5_completion 1 1 (by decide) c5Final
    (reach_of_runActs c5Trace (initSys 1 1) c5Final rfl) rfl (by decide)).1

/-- C6: the stop flag never reverts within a run; a worker polling the loop
condition with the stop event set exits at once — at that poll its dequeue
and request actions are disabled — and an exited worker stays exited along
every later execution with dequeue and request permanently disabled; a
worker holding an in-flight classified response still records it (the
counter update is enabled regardless of the stop flag), and `q.task_done`
leads straight back to the poll, so the signal is observed within one loop
iteration. -/
theorem C6_stop_signal :
    (∀ s s' : Sys, StepR s s' → s.stop = true → s'.stop = true) ∧
    (∀ (s : Sys) (i : ℕ), s.workers.get? i = some WPC.check → s.stop = true →
      applyAct (Act.wcheck i) s =
        some { s with workers := s.workers.set i WPC.exited } ∧
      applyAct (Act.wtake i) s = none ∧
      ∀ r, applyAct (Act.wexec i r) s = none) ∧
    (∀ (s s' : Sys) (i : ℕ), Reach s s' →
      s.workers.get? i = some WPC.exited →
      s'.workers.get? i = some WPC.exited ∧
      applyAct (Act.wtake i) s' = none ∧
      ∀ r, applyAct (Act.wexec i r) s' = none) ∧
    (∀ (s : Sys) (i : ℕ) (o : Outcome), s.workers.get? i = some (WPC.record o) →
      applyAct (Act.wrecord i) s =
        some { s with counters := recordOutcome s.counters o,
                      workers := s.workers.set i WPC.done }) ∧
    (∀ (s : Sys) (i : ℕ), s.workers.get? i = some WPC.done →
      applyAct (Act.wdone i) s =
        some { s with unfinished := s.unfinished - 1,
                      workers := s.workers.set i WPC.check }) := by
  refine ⟨fun s s' h => stepR_stop_mono h, ?_, ?_, ?_, ?_⟩
  · intro s i hw hs
    refine ⟨?_, ?_, fun r => ?_⟩ <;> (simp only [applyAct]; rw [hw]; try simp [hs])
  · intro s s' i hr he
    have he' := reach_exited hr he
    refine ⟨he', ?_, fun r => ?_⟩ <;> (simp only [applyAct]; rw [he'])
  · intro s i o hw
    simp only [applyAct]
    rw [hw]
  · intro s i hw
    simp only [applyAct]
    rw [hw]

theorem C6_stop_signal_witness :
    applyAct (Act.wcheck 0) c6Polling =
      some { c6Polling with workers := c6Polling.workers.set 0 WPC.exited } ∧
    applyAct (Act.wtake 0) c6Polling = none :=
  ⟨(C6_stop_signal.2.1 c6Polling 0 rfl rfl).1,
   (C6_stop_signal.2.1 c6Polling 0 rfl rfl).2.1⟩

/-- C1 (code bug): in the interrupt scenario — SIGINT raised after 3
completed requests out of N = 100 with T = 1 — the run reaches a state
where the stop event is set, the worker exited, the counters balance with
`sent = 3`, 97 queue items were never `task_done`-ed, and the main thread
sits at `q.join()`.  From that state no execution ever reaches the bounded
thread-join phase nor the summary: `q.join()` returns only when the
unfinished-task count is zero, and only workers — all exited — decrement
it.  The process therefore waits unboundedly and never prints the summary,
contrary to the claimed bounded shutdown window. -/
theorem C1_interrupt_never_summarizes :
    runActs (initSys 100 1) c1Trace = some c1Blocked ∧
    Reach (initSys 100 1) c1Blocked ∧
    c1Blocked.stop = true ∧
    c1Blocked.counters.sent = 3 ∧
    c1Blocked.counters.sent =
      c1Blocked.counters.success + c1Blocked.counters.fail ∧
    c1Blocked.unfinished = 97 ∧
    ∀ s', Reach c1Blocked s' →
      s'.coord ≠ CPC.joining ∧ s'.coord ≠ CPC.summary := by
  refine ⟨rfl, reach_of_runActs c1Trace _ _ rfl, rfl, rfl, rfl, rfl, ?_⟩
  intro s' h
  rw [c1Blocked_only s' h]
  exact ⟨by decide, by decide⟩

theorem C1_interrupt_never_summarizes_witness :
    c1Blocked.coord ≠ CPC.joining ∧ c1Blocked.coord ≠ CPC.summary :=
  C1_interrupt_never_summarizes.2.2.2.2.2.2 c1Blocked Relation.ReflTransGen.refl

/-- C9: the summary block always contains the Total sent, Successful,
Failed/error and Elapsed lines; it contains a Requests/sec line exactly
when the elapsed time is strictly positive; and any Requests/sec line
carries `sent / elapsed` with a positive divisor, so the division is never
evaluated with a zero divisor. -/
theorem C9_summary (c : Counters) (e : ℚ) :
    SummaryLine.totalSent c.sent ∈ summaryLines c e ∧
    SummaryLine.successful c.success ∈ summaryLines c e ∧
    SummaryLine.failed c.fail ∈ summaryLines c e ∧
    SummaryLine.elapsedSecs e ∈ summaryLines c e ∧
    ((∃ r, SummaryLine.reqPerSec r ∈ summaryLines c e) ↔ 0 < e) ∧
    (∀ r, SummaryLine.reqPerSec r ∈ summaryLines c e →
      0 < e ∧ r = (c.sent : ℚ) / e) := by
  by_cases he : 0 < e <;> simp [summaryLines, he]

theorem C9_summary_witness :
    (0 : ℚ) < 2 ∧
      (3 : ℚ) / 2 = (((⟨3, 2, 1⟩ : Counters).sent : ℚ)) / 2 :=
  (C9_summary ⟨3, 2, 1⟩ 2).2.2.2.2.2 ((3 : ℚ) / 2) (by norm_num [summaryLines])

/-- C7 (counterexample): `parse_headers` stores keys in a plain dict keyed
by the exact header-name string, so two `--header` entries whose names
differ only in letter case yield two distinct entries, each keeping its own
value — not a single entry holding the later entry's value. -/
theorem C7_counterexample :
    (parse_headers (some ["X-Token: 1", "x-token: 2"])).length = 2 ∧
    ("X-Token".data, "1".data) ∈ parse_headers (some ["X-Token: 1", "x-token: 2"]) ∧
    ("x-token".data, "2".data) ∈ parse_headers (some ["X-Token: 1", "x-token: 2"]) := by
  decide

/-- C7 (amended): the header mapping built from the `--header` arguments
treats names case-sensitively: last-wins applies exactly when two entries'
stripped names are equal as strings, and names that differ — even only in
letter case — yield two separate entries, each with its own value. -/
theorem C7_exact_name_last_wins (k k' v1 v2 : List Char)
    (hk : ':' ∉ k) (hk' : ':' ∉ k') :
    parse_headers (some [mkHeader k v1, mkHeader k v2]) =
      [(pyStrip k, pyStrip v2)] ∧
    (pyStrip k ≠ pyStrip k' →
      parse_headers (some [mkHeader k v1, mkHeader k' v2]) =
        [(pyStrip k, pyStrip v1), (pyStrip k', pyStrip v2)]) := by
  constructor
  · show addHeader (addHeader [] (mkHeader k v1)) (mkHeader k v2) = _
    rw [addHeader_mkHeader _ _ _ hk, addHeader_mkHeader _ _ _ hk,
      dictInsert_nil, dictInsert_same]
  · intro hkk
    show addHeader (addHeader [] (mkHeader k v1)) (mkHeader k' v2) = _
    rw [addHeader_mkHeader _ _ _ hk, addHeader_mkHeader _ _ _ hk',
      dictInsert_nil, dictInsert_other _ _ _ _ hkk]

theorem C7_exact_name_last_wins_witness :
    parse_headers (some [mkHeader "Accept".data "1".data,
        mkHeader "Accept".data "2".data]) =
      [(pyStrip "Accept".data, pyStrip "2".data)] :=
  (C7_exact_name_last_wins "Accept".data "accept".data "1".data "2".data
    (by decide) (by decide)).1

/-- C8: a `--header` entry containing no colon is silently dropped (the
loop body leaves the dict unchanged for it), and the documented example
list yields exactly the single Content-Type entry. -/
theorem C8_no_colon_dropped :
    (∀ (m : List (List Char × List Char)) (h : String),
      ':' ∉ h.data → addHeader m h = m) ∧
    parse_headers (some ["Content-Type: application/json", "BadHeaderNoColon"]) =
      [("Content-Type".data, "application/json".data)] := by
  refine ⟨?_, by decide⟩
  intro m h hcolon
  simp [addHeader, splitFirstColon_eq_none h.data hcolon]

theorem C8_no_colon_dropped_witness :
    addHeader [] "BadHeaderNoColon" = [] :=
  C8_no_colon_dropped.1 [] "BadHeaderNoColon" (by decide)

/-- C10: `parse_headers` splits each entry at its first colon only (the
value may itself contain colons), strips leading and trailing whitespace
from both the name and the value, keeps an entry whose colon is followed by
nothing (the name maps to the empty string), and returns the empty mapping
when the header list is absent (`None`) or empty. -/
theorem C10_parse_headers_details :
    parse_headers none = [] ∧
    parse_headers (some []) = [] ∧
    (∀ k v : List Char, ':' ∉ k →
      parse_headers (some [mkHeader k v]) = [(pyStrip k, pyStrip v)]) ∧
    parse_headers (some ["X-A: b:c "]) = [("X-A".data, "b:c".data)] ∧
    parse_headers (some ["   Name  :  val  "]) = [("Name".data, "val".data)] ∧
    parse_headers (some ["Name:"]) = [("Name".data, ([] : List Char))] := by
  refine ⟨rfl, rfl, ?_, by decide, by decide, by decide⟩
  intro k v hk
  show addHeader [] (mkHeader k v) = _
  rw [addHeader_mkHeader _ _ _ hk, dictInsert_nil]

theorem C10_parse_headers_details_witness :
    parse_headers (some [mkHeader "A".data " b:c:d ".data]) =
      [(pyStrip "A".data, pyStrip " b:c:d ".data)] :=
  C10_parse_headers_details.2.2.1 "A".data " b:c:d ".data (by decide)

end LoadGen
